import Mathlib

/-!
Shallow embedding of the protozero-rs decoding core (src/encoding.rs,
src/message.rs, src/field.rs) and proofs about it.

Bytes are modelled as natural numbers (a byte is `< 256`; hypotheses state
this where it matters).  Fallible Rust functions returning
`Result<T, Error>` become `RResult T`; the extra constructor `panicked`
models a Rust panic, in particular an out-of-bounds slice index or an
overflowing shift amount, so "never panics / never reads out of bounds"
is the statement that `panicked` is never returned.
-/

/-- Outcome of a fallible Rust computation: success, the crate error
`Error`, or a panic (out-of-bounds index / overflowing shift). -/
inductive RResult (α : Type) where
  | ok : α → RResult α
  | err : RResult α
  | panicked : RResult α
deriving DecidableEq, Repr

/-- Embedding of `read_varint_loop`'s `while` loop: `index` and `value` are
the loop-local variables, the first argument is `buf[index..]`.  The Rust
shift `((byte & 0x7f) as u64) << (index * 7)` panics when the shift amount
reaches 64, and discards bits shifted out otherwise (modelled by `% 2 ^ 64`). -/
def readVarintLoopGo : List Nat → Nat → Nat → RResult (List Nat × Nat)
  | [], _, _ => .err
  | byte :: rest, index, value =>
    if 64 ≤ index * 7 then .panicked
    else
      let value := value ||| ((byte &&& 0x7f) <<< (index * 7)) % 2 ^ 64
      if byte ≤ 0x7f then .ok (rest, value)
      else readVarintLoopGo rest (index + 1) value

/-- Embedding of `read_varint_loop` (src/encoding.rs lines 63-74). -/
def read_varint_loop (buf : List Nat) : RResult (List Nat × Nat) :=
  readVarintLoopGo buf 0 0

/-- Embedding of `read_varint_1` (src/encoding.rs lines 17-61): when at
least `VARINT_MAX_LEN = 10` bytes are present the decoder is unrolled over
`buf[0]..buf[9]`; the wildcard arm models the (unreachable under the length
guard) out-of-bounds panic of indexed access. -/
def read_varint_1 (buf : List Nat) : RResult (List Nat × Nat) :=
  if 10 ≤ buf.length then
    match buf with
    | b0 :: b1 :: b2 :: b3 :: b4 :: b5 :: b6 :: b7 :: b8 :: b9 :: rest =>
      let value := b0 &&& 0x7f
      let value := value ||| (b1 &&& 0x7f) <<< 7
      if b1 ≤ 0x7f then .ok (b2 :: b3 :: b4 :: b5 :: b6 :: b7 :: b8 :: b9 :: rest, value)
      else
        let value := value ||| (b2 &&& 0x7f) <<< 14
        if b2 ≤ 0x7f then .ok (b3 :: b4 :: b5 :: b6 :: b7 :: b8 :: b9 :: rest, value)
        else
          let value := value ||| (b3 &&& 0x7f) <<< 21
          if b3 ≤ 0x7f then .ok (b4 :: b5 :: b6 :: b7 :: b8 :: b9 :: rest, value)
          else
            let value := value ||| (b4 &&& 0x7f) <<< 28
            if b4 ≤ 0x7f then .ok (b5 :: b6 :: b7 :: b8 :: b9 :: rest, value)
            else
              let value := value ||| (b5 &&& 0x7f) <<< 35
              if b5 ≤ 0x7f then .ok (b6 :: b7 :: b8 :: b9 :: rest, value)
              else
                let value := value ||| (b6 &&& 0x7f) <<< 42
                if b6 ≤ 0x7f then .ok (b7 :: b8 :: b9 :: rest, value)
                else
                  let value := value ||| (b7 &&& 0x7f) <<< 49
                  if b7 ≤ 0x7f then .ok (b8 :: b9 :: rest, value)
                  else
                    let value := value ||| (b8 &&& 0x7f) <<< 56
                    if b8 ≤ 0x7f then .ok (b9 :: rest, value)
                    else
                      let value := value ||| (b9 &&& 0x01) <<< 63
                      if b9 ≤ 0x01 then .ok (rest, value)
                      else .err
    | _ => .panicked
  else read_varint_loop buf

/-- Embedding of `read_varint` (src/encoding.rs lines 7-14): fast path for a
first byte `≤ 0x7f`, otherwise fall through to `read_varint_1`. -/
def read_varint (buf : List Nat) : RResult (List Nat × Nat) :=
  match buf with
  | byte :: rest => if byte ≤ 0x7f then .ok (rest, byte) else read_varint_1 buf
  | [] => read_varint_1 buf

example : read_varint [0xa2, 0x74] = .ok ([], 14882) := by decide
example : read_varint [0xff, 0xff, 0xff, 0xff, 0xff, 0xff, 0xff, 0xff, 0xff, 0x01]
    = .ok ([], 0xffffffffffffffff) := by decide

/-- A list of length at least 10 starts with ten explicit elements. -/
theorem exists_cons_ten {α : Type} (l : List α) (h : 10 ≤ l.length) :
    ∃ b0 b1 b2 b3 b4 b5 b6 b7 b8 b9 t,
      l = b0 :: b1 :: b2 :: b3 :: b4 :: b5 :: b6 :: b7 :: b8 :: b9 :: t := by
  rcases l with _ | ⟨b0, l⟩; · simp at h
  rcases l with _ | ⟨b1, l⟩; · simp at h
  rcases l with _ | ⟨b2, l⟩; · simp at h
  rcases l with _ | ⟨b3, l⟩; · simp at h
  rcases l with _ | ⟨b4, l⟩; · simp at h
  rcases l with _ | ⟨b5, l⟩; · simp at h
  rcases l with _ | ⟨b6, l⟩; · simp at h
  rcases l with _ | ⟨b7, l⟩; · simp at h
  rcases l with _ | ⟨b8, l⟩; · simp at h
  rcases l with _ | ⟨b9, l⟩; · simp at h
  exact ⟨b0, b1, b2, b3, b4, b5, b6, b7, b8, b9, l, rfl⟩

/-- A list of length at least 8 starts with eight explicit elements. -/
theorem exists_cons_eight {α : Type} (l : List α) (h : 8 ≤ l.length) :
    ∃ b0 b1 b2 b3 b4 b5 b6 b7 t,
      l = b0 :: b1 :: b2 :: b3 :: b4 :: b5 :: b6 :: b7 :: t := by
  rcases l with _ | ⟨b0, l⟩; · simp at h
  rcases l with _ | ⟨b1, l⟩; · simp at h
  rcases l with _ | ⟨b2, l⟩; · simp at h
  rcases l with _ | ⟨b3, l⟩; · simp at h
  rcases l with _ | ⟨b4, l⟩; · simp at h
  rcases l with _ | ⟨b5, l⟩; · simp at h
  rcases l with _ | ⟨b6, l⟩; · simp at h
  rcases l with _ | ⟨b7, l⟩; · simp at h
  exact ⟨b0, b1, b2, b3, b4, b5, b6, b7, l, rfl⟩

/-- C1 helper: the two-byte decode, for buffers long enough to take the
unrolled path. -/
theorem read_varint_two_byte_long (b0 b1 : Nat) (rest : List Nat)
    (h0 : 0x7f < b0) (h1 : b1 ≤ 0x7f)
    (hlen : 8 ≤ rest.length) :
    read_varint (b0 :: b1 :: rest) = .ok (rest, (b0 &&& 0x7f) ||| (b1 &&& 0x7f) <<< 7) := by
  obtain ⟨r0, r1, r2, r3, r4, r5, r6, r7, t, rfl⟩ := exists_cons_eight rest hlen
  simp [read_varint, read_varint_1, Nat.not_le.mpr h0, h1, Nat.le_add_left]

/-- The 7-bit group shifted into place stays below 2 to the 64 whenever the
shift amount is at most 56, so the u64 shift discards nothing. -/
theorem small_shift_mod (b s : Nat) (hs : s ≤ 56) :
    ((b &&& 0x7f) <<< s) % 2 ^ 64 = (b &&& 0x7f) <<< s := by
  apply Nat.mod_eq_of_lt
  have hb : b &&& 0x7f < 2 ^ 7 := Nat.lt_of_le_of_lt Nat.and_le_right (by norm_num)
  calc (b &&& 0x7f) <<< s = (b &&& 0x7f) * 2 ^ s := Nat.shiftLeft_eq _ _
    _ < 2 ^ 7 * 2 ^ s := (Nat.mul_lt_mul_right (Nat.pos_pow_of_pos s (by norm_num))).mpr hb
    _ = 2 ^ (7 + s) := (Nat.pow_add 2 7 s).symm
    _ ≤ 2 ^ 64 := Nat.pow_le_pow_right (by norm_num) (by omega)

/-- C1 helper: the two-byte decode for any trailing bytes. -/
theorem read_varint_two_byte (b0 b1 : Nat) (rest : List Nat)
    (h0 : 0x7f < b0) (h1 : b1 ≤ 0x7f) :
    read_varint (b0 :: b1 :: rest) = .ok (rest, (b0 &&& 0x7f) ||| (b1 &&& 0x7f) <<< 7) := by
  by_cases hlen : 8 ≤ rest.length
  · exact read_varint_two_byte_long b0 b1 rest h0 h1 hlen
  · have hm0 : (b0 &&& 0x7f) % 2 ^ 64 = b0 &&& 0x7f :=
      Nat.mod_eq_of_lt (by have : b0 &&& 0x7f ≤ 0x7f := Nat.and_le_right; omega)
    have hm1 := small_shift_mod b1 7 (by omega)
    norm_num at hm0 hm1
    simp [read_varint, read_varint_1, read_varint_loop, readVarintLoopGo,
      Nat.not_le.mpr h0, h1, Nat.not_le.mpr (Nat.lt_of_not_le hlen)]
    rw [Nat.mod_eq_of_lt hm0, Nat.mod_eq_of_lt hm1]

/-- C1: every row of the round-trip table decodes to exactly the tabulated
value, consuming exactly the tabulated number of bytes, for any trailing
bytes: 0x00 to 0 (1 byte), 0x01 to 1 (1 byte), 0x7f to 127 (1 byte),
0xa2 0x74 to 14882 (2 bytes), 0xff times 9 then 0x01 to 0xFFFFFFFFFFFFFFFF
(10 bytes). -/
theorem varint_round_trip_table :
    (∀ rest : List Nat, read_varint (0x00 :: rest) = .ok (rest, 0))
    ∧ (∀ rest : List Nat, read_varint (0x01 :: rest) = .ok (rest, 1))
    ∧ (∀ rest : List Nat, read_varint (0x7f :: rest) = .ok (rest, 127))
    ∧ (∀ rest : List Nat, read_varint (0xa2 :: 0x74 :: rest) = .ok (rest, 14882))
    ∧ (∀ rest : List Nat,
        read_varint (0xff :: 0xff :: 0xff :: 0xff :: 0xff :: 0xff :: 0xff :: 0xff :: 0xff
          :: 0x01 :: rest) = .ok (rest, 0xffffffffffffffff)) := by
  refine ⟨fun rest => by simp [read_varint], fun rest => by simp [read_varint],
    fun rest => by simp [read_varint], fun rest => ?_, fun rest => ?_⟩
  · have h : (0xa2 &&& 0x7f) ||| (0x74 &&& 0x7f) <<< 7 = 14882 := by decide
    rw [read_varint_two_byte 0xa2 0x74 rest (by omega) (by omega), h]
  · simp [read_varint, read_varint_1, Nat.le_add_left]
    decide

/-- The loop decoder fails on a run of continuation bytes, provided the
index stays small enough for the shifts (true for every call site). -/
theorem loopGo_all_cont : ∀ (rem : List Nat) (idx val : Nat), idx + rem.length ≤ 9 →
    (∀ b ∈ rem, 0x80 ≤ b) → readVarintLoopGo rem idx val = .err
  | [], _, _, _, _ => rfl
  | byte :: rest, idx, val, hlen, hcont => by
    have hb : 0x80 ≤ byte := hcont byte (by simp)
    have hrest : ∀ b ∈ rest, 0x80 ≤ b := fun b hb2 => hcont b (by simp [hb2])
    have hlen1 : idx + 1 + rest.length ≤ 9 := by simp at hlen; omega
    have hshift : ¬ 64 ≤ idx * 7 := by simp at hlen; omega
    simp only [readVarintLoopGo, if_neg hshift, if_neg (by omega : ¬ byte ≤ 0x7f)]
    exact loopGo_all_cont rest (idx + 1) _ hlen1 hrest

/-- The loop decoder never panics when the starting index leaves all shift
amounts below 64 (true for every call site, where the buffer is shorter
than 10 bytes). -/
theorem loopGo_ne_panicked : ∀ (rem : List Nat) (idx val : Nat), idx + rem.length ≤ 9 →
    readVarintLoopGo rem idx val ≠ .panicked
  | [], _, _, _ => by simp [readVarintLoopGo]
  | byte :: rest, idx, val, hlen => by
    have hshift : ¬ 64 ≤ idx * 7 := by simp at hlen; omega
    by_cases hb : byte ≤ 0x7f
    · simp [readVarintLoopGo, hshift, hb]
    · simp only [readVarintLoopGo, if_neg hshift, if_neg hb]
      exact loopGo_ne_panicked rest (idx + 1) _ (by simp at hlen; omega)

/-- A buffer of 10 or more bytes whose first nine bytes all carry the
continuation bit and whose tenth byte is at least 2 fails to decode. -/
theorem read_varint_cont10_err (b0 b1 b2 b3 b4 b5 b6 b7 b8 b9 : Nat) (rest : List Nat)
    (h : ∀ b ∈ [b0, b1, b2, b3, b4, b5, b6, b7, b8], 0x80 ≤ b) (h9 : 2 ≤ b9) :
    read_varint (b0 :: b1 :: b2 :: b3 :: b4 :: b5 :: b6 :: b7 :: b8 :: b9 :: rest) = .err := by
  have h0 := h b0 (by simp)
  have h1 := h b1 (by simp)
  have h2 := h b2 (by simp)
  have h3 := h b3 (by simp)
  have h4 := h b4 (by simp)
  have h5 := h b5 (by simp)
  have h6 := h b6 (by simp)
  have h7 := h b7 (by simp)
  have h8 := h b8 (by simp)
  simp [read_varint, read_varint_1, Nat.le_add_left,
    Nat.not_le.mpr (show 0x7f < b0 by omega), Nat.not_le.mpr (show 0x7f < b1 by omega),
    Nat.not_le.mpr (show 0x7f < b2 by omega), Nat.not_le.mpr (show 0x7f < b3 by omega),
    Nat.not_le.mpr (show 0x7f < b4 by omega), Nat.not_le.mpr (show 0x7f < b5 by omega),
    Nat.not_le.mpr (show 0x7f < b6 by omega), Nat.not_le.mpr (show 0x7f < b7 by omega),
    Nat.not_le.mpr (show 0x7f < b8 by omega), Nat.not_le.mpr (show 0x01 < b9 by omega)]

/-- The unrolled decoder never panics. -/
theorem read_varint_1_ne_panicked (buf : List Nat) : read_varint_1 buf ≠ .panicked := by
  by_cases h : 10 ≤ buf.length
  · obtain ⟨b0, b1, b2, b3, b4, b5, b6, b7, b8, b9, t, rfl⟩ := exists_cons_ten buf h
    simp only [read_varint_1, if_pos h]
    repeat' split
    all_goals simp
  · simp only [read_varint_1, if_neg h]
    exact loopGo_ne_panicked buf 0 0 (by omega)

/-- The varint reader never panics: it never indexes out of bounds and
never shifts by 64 or more. -/
theorem read_varint_ne_panicked (buf : List Nat) : read_varint buf ≠ .panicked := by
  match buf with
  | [] => exact read_varint_1_ne_panicked []
  | byte :: rest =>
    by_cases hb : byte ≤ 0x7f
    · simp [read_varint, hb]
    · simp only [read_varint, if_neg hb]
      exact read_varint_1_ne_panicked (byte :: rest)

/-- C2: read_varint fails on the empty slice, on any nonempty all-continuation
input (every byte has the high bit set), and on any 10-byte-or-longer input
whose first nine bytes carry the continuation bit while the tenth byte has a
bit above bit 0 set; and it never panics (never indexes past the slice). -/
theorem varint_invalid_table :
    read_varint ([] : List Nat) = .err
    ∧ (∀ buf : List Nat, buf ≠ [] → (∀ b ∈ buf, 0x80 ≤ b ∧ b < 256) →
        read_varint buf = .err)
    ∧ (∀ b0 b1 b2 b3 b4 b5 b6 b7 b8 b9 : Nat, ∀ rest : List Nat,
        (∀ b ∈ [b0, b1, b2, b3, b4, b5, b6, b7, b8], 0x80 ≤ b ∧ b < 256) →
        2 ≤ b9 → b9 < 256 →
        read_varint (b0 :: b1 :: b2 :: b3 :: b4 :: b5 :: b6 :: b7 :: b8 :: b9 :: rest) = .err)
    ∧ (∀ buf : List Nat, read_varint buf ≠ .panicked) := by
  refine ⟨by decide, fun buf hne hcont => ?_, fun b0 b1 b2 b3 b4 b5 b6 b7 b8 b9 rest h h9 _ =>
    read_varint_cont10_err b0 b1 b2 b3 b4 b5 b6 b7 b8 b9 rest (fun b hb => (h b hb).1) h9,
    read_varint_ne_panicked⟩
  by_cases hlen : 10 ≤ buf.length
  · obtain ⟨b0, b1, b2, b3, b4, b5, b6, b7, b8, b9, t, rfl⟩ := exists_cons_ten buf hlen
    refine read_varint_cont10_err b0 b1 b2 b3 b4 b5 b6 b7 b8 b9 t
      (fun b hb => ?_) ?_
    · refine (hcont b ?_).1
      simp at hb
      rcases hb with h | h | h | h | h | h | h | h | h <;> simp [h]
    · have := (hcont b9 (by simp)).1
      omega
  · rcases buf with _ | ⟨byte, rest⟩
    · exact absurd rfl hne
    · have hb := (hcont byte (by simp)).1
      simp only [read_varint, if_neg (by omega : ¬ byte ≤ 0x7f), read_varint_1,
        if_neg hlen]
      exact loopGo_all_cont (byte :: rest) 0 0 (by simp at hlen ⊢; omega)
        (fun b hb2 => (hcont b hb2).1)

/-- C3 counterexample: on the 10-byte input 0xff times 9 followed by 0x02,
the fast-path function read_varint reports an overflow error while the
general loop read_varint_loop happily returns a (truncated) value, so the
two functions are not behaviorally identical on every slice. -/
theorem fast_path_loop_counterexample :
    read_varint [0xff, 0xff, 0xff, 0xff, 0xff, 0xff, 0xff, 0xff, 0xff, 0x02]
      ≠ read_varint_loop [0xff, 0xff, 0xff, 0xff, 0xff, 0xff, 0xff, 0xff, 0xff, 0x02] := by
  decide

/-- C3 (amended): read_varint agrees with read_varint_loop on every slice
shorter than VARINT_MAX_LEN = 10 bytes (in particular whenever it actually
delegates to the loop) and on every slice whose first byte is at most 0x7f
(the whole fast-path domain); only the length-10-or-more unrolled path,
which enforces the tenth-byte overflow check, can differ from the loop. -/
theorem fast_path_eq_loop (buf : List Nat)
    (h : buf.length < 10 ∨ ∃ b rest, buf = b :: rest ∧ b ≤ 0x7f) :
    read_varint buf = read_varint_loop buf := by
  rcases buf with _ | ⟨b, rest⟩
  · rfl
  · by_cases hb : b ≤ 0x7f
    · have hband : b &&& 0x7f = b := by
        have h2 := Nat.and_pow_two_sub_one_eq_mod b 7
        norm_num at h2
        rw [h2]
        exact Nat.mod_eq_of_lt (by omega)
      have hmod : b % 2 ^ 64 = b := Nat.mod_eq_of_lt (by omega)
      norm_num at hmod
      simp [read_varint, read_varint_loop, readVarintLoopGo, hb, hband]
      exact (Nat.mod_eq_of_lt hmod).symm
    · rcases h with hlen | ⟨b2, rest2, heq, hb2⟩
      · simp only [read_varint, if_neg hb, read_varint_1,
          if_neg (by simp at hlen ⊢; omega : ¬ 10 ≤ (b :: rest).length)]
      · rw [List.cons.injEq] at heq
        exact absurd (heq.1 ▸ hb2) hb

/-- Two's-complement reinterpretation of a 32-bit pattern (Rust `as i32`). -/
def toSigned32 (n : Nat) : Int := if n < 2 ^ 31 then (n : Int) else (n : Int) - 2 ^ 32

/-- Two's-complement reinterpretation of a 64-bit pattern (Rust `as i64`). -/
def toSigned64 (n : Nat) : Int := if n < 2 ^ 63 then (n : Int) else (n : Int) - 2 ^ 64

/-- The 32-bit pattern of an i32 value (Rust `as u32`). -/
def toUnsigned32 (i : Int) : Nat := (i % 2 ^ 32).toNat

/-- The 64-bit pattern of an i64 value (Rust `as u64`). -/
def toUnsigned64 (i : Int) : Nat := (i % 2 ^ 64).toNat

/-- Bitwise xor of two i32 values, computed on their 32-bit patterns. -/
def int32Xor (a b : Int) : Int := toSigned32 (toUnsigned32 a ^^^ toUnsigned32 b)

/-- Bitwise xor of two i64 values, computed on their 64-bit patterns. -/
def int64Xor (a b : Int) : Int := toSigned64 (toUnsigned64 a ^^^ toUnsigned64 b)

namespace zigzag

/-- Embedding of `zigzag::decode_32` (src/encoding.rs lines 78-80):
`(n >> 1) as i32 ^ -((n & 1) as i32)`. -/
def decode_32 (n : Nat) : Int :=
  int32Xor (toSigned32 (n >>> 1)) (-toSigned32 (n &&& 1))

/-- Embedding of `zigzag::decode_64` (src/encoding.rs lines 83-85):
`(n >> 1) as i64 ^ -((n & 1) as i64)`. -/
def decode_64 (n : Nat) : Int :=
  int64Xor (toSigned64 (n >>> 1)) (-toSigned64 (n &&& 1))

end zigzag

/-- The zigzag encoding as the spec characterises it: signed values of small
magnitude and either sign become small unsigned values, nonnegative v at
even position 2v, negative v at odd position -2v - 1 (0 to 0, -1 to 1,
1 to 2, -2 to 3). -/
def specZigzagEncode (v : Int) : Nat :=
  if 0 ≤ v then (2 * v).toNat else (-2 * v - 1).toNat

/-- Xor with an all-ones mask is complement below the mask. -/
theorem xor_two_pow_sub_one : ∀ (w a : Nat), a < 2 ^ w → a ^^^ (2 ^ w - 1) = 2 ^ w - 1 - a
  | 0, a, h => by
    have ha : a = 0 := by simp at h; omega
    subst ha; rfl
  | w + 1, a, h => by
    have hw1 : 0 < 2 ^ w := Nat.pos_pow_of_pos w (by norm_num)
    have hpow : 2 ^ (w + 1) = 2 * 2 ^ w := by rw [Nat.pow_succ, Nat.mul_comm]
    have hdiv : (a ^^^ (2 ^ (w + 1) - 1)) / 2 = (a / 2) ^^^ (2 ^ w - 1) := by
      rw [Nat.xor_div_two]
      congr 1
      omega
    have hih : (a / 2) ^^^ (2 ^ w - 1) = 2 ^ w - 1 - a / 2 :=
      xor_two_pow_sub_one w (a / 2) (by omega)
    have hm2 : (2 ^ (w + 1) - 1) % 2 = 1 := by omega
    have hmod : (a ^^^ (2 ^ (w + 1) - 1)) % 2 = 1 - a % 2 := by
      by_cases ha : a % 2 = 1
      · have hnot : ¬ (a ^^^ (2 ^ (w + 1) - 1)) % 2 = 1 := by
          rw [Nat.xor_mod_two_eq_one]
          simp [ha, hm2]
        have := Nat.mod_two_eq_zero_or_one (a ^^^ (2 ^ (w + 1) - 1))
        omega
      · have hyes : (a ^^^ (2 ^ (w + 1) - 1)) % 2 = 1 := by
          rw [Nat.xor_mod_two_eq_one]
          intro hiff
          exact ha (hiff.mpr hm2)
        omega
    have hsplit := Nat.div_add_mod (a ^^^ (2 ^ (w + 1) - 1)) 2
    omega

/-- Decoding an even 32-bit zigzag value gives the nonnegative half. -/
theorem decode32_even (n : Nat) (hn : n < 2 ^ 32) (he : n % 2 = 0) :
    zigzag.decode_32 n = ((n / 2 : Nat) : Int) := by
  have hdiv : n >>> 1 = n / 2 := by rw [Nat.shiftRight_eq_div_pow]
  have hand : n &&& 1 = 0 := by rw [Nat.and_one_is_mod, he]
  have hlt : n / 2 < 2 ^ 31 := by omega
  unfold zigzag.decode_32 int32Xor toUnsigned32
  rw [hdiv, hand]
  have h0 : toSigned32 0 = 0 := by unfold toSigned32; norm_num
  have hd : toSigned32 (n / 2) = ((n / 2 : Nat) : Int) := by
    unfold toSigned32; rw [if_pos hlt]
  have hu : ((((n / 2 : Nat) : Int)) % 2 ^ 32).toNat = n / 2 := by
    have hle : (0 : Int) ≤ ((n / 2 : Nat) : Int) := Int.natCast_nonneg _
    have hlt2 : ((n / 2 : Nat) : Int) < 2 ^ 32 := by
      have hx : n / 2 < 2 ^ 32 := by omega
      exact_mod_cast hx
    rw [Int.emod_eq_of_lt hle hlt2]
    exact Int.toNat_ofNat _
  have hz : ((0 : Int) % 2 ^ 32).toNat = 0 := by decide
  rw [h0, hd, neg_zero, hz, hu, Nat.xor_zero]
  exact hd

/-- Decoding an odd 32-bit zigzag value gives the negative half. -/
theorem decode32_odd (n : Nat) (hn : n < 2 ^ 32) (ho : n % 2 = 1) :
    zigzag.decode_32 n = -((n / 2 : Nat) : Int) - 1 := by
  have hdiv : n >>> 1 = n / 2 := by rw [Nat.shiftRight_eq_div_pow]
  have hand : n &&& 1 = 1 := by rw [Nat.and_one_is_mod, ho]
  have hlt : n / 2 < 2 ^ 31 := by omega
  unfold zigzag.decode_32 int32Xor toUnsigned32
  rw [hdiv, hand]
  have h1 : toSigned32 1 = 1 := by unfold toSigned32; norm_num
  have hd : toSigned32 (n / 2) = ((n / 2 : Nat) : Int) := by
    unfold toSigned32; rw [if_pos hlt]
  have hu : ((((n / 2 : Nat) : Int)) % 2 ^ 32).toNat = n / 2 := by
    have hle : (0 : Int) ≤ ((n / 2 : Nat) : Int) := Int.natCast_nonneg _
    have hlt2 : ((n / 2 : Nat) : Int) < 2 ^ 32 := by
      have hx : n / 2 < 2 ^ 32 := by omega
      exact_mod_cast hx
    rw [Int.emod_eq_of_lt hle hlt2]
    exact Int.toNat_ofNat _
  have hneg : ((-1 : Int) % 2 ^ 32).toNat = 2 ^ 32 - 1 := by decide
  rw [h1, hd, hu, hneg]
  have hxor : n / 2 ^^^ (2 ^ 32 - 1) = 2 ^ 32 - 1 - n / 2 :=
    xor_two_pow_sub_one 32 (n / 2) (by omega)
  rw [hxor]
  unfold toSigned32
  rw [if_neg (by omega)]
  omega

/-- Decoding an even 64-bit zigzag value gives the nonnegative half. -/
theorem decode64_even (n : Nat) (hn : n < 2 ^ 64) (he : n % 2 = 0) :
    zigzag.decode_64 n = ((n / 2 : Nat) : Int) := by
  have hdiv : n >>> 1 = n / 2 := by rw [Nat.shiftRight_eq_div_pow]
  have hand : n &&& 1 = 0 := by rw [Nat.and_one_is_mod, he]
  have hlt : n / 2 < 2 ^ 63 := by omega
  unfold zigzag.decode_64 int64Xor toUnsigned64
  rw [hdiv, hand]
  have h0 : toSigned64 0 = 0 := by unfold toSigned64; norm_num
  have hd : toSigned64 (n / 2) = ((n / 2 : Nat) : Int) := by
    unfold toSigned64; rw [if_pos hlt]
  have hu : ((((n / 2 : Nat) : Int)) % 2 ^ 64).toNat = n / 2 := by
    have hle : (0 : Int) ≤ ((n / 2 : Nat) : Int) := Int.natCast_nonneg _
    have hlt2 : ((n / 2 : Nat) : Int) < 2 ^ 64 := by
      have hx : n / 2 < 2 ^ 64 := by omega
      exact_mod_cast hx
    rw [Int.emod_eq_of_lt hle hlt2]
    exact Int.toNat_ofNat _
  have hz : ((0 : Int) % 2 ^ 64).toNat = 0 := by decide
  rw [h0, hd, neg_zero, hz, hu, Nat.xor_zero]
  exact hd

/-- Decoding an odd 64-bit zigzag value gives the negative half. -/
theorem decode64_odd (n : Nat) (hn : n < 2 ^ 64) (ho : n % 2 = 1) :
    zigzag.decode_64 n = -((n / 2 : Nat) : Int) - 1 := by
  have hdiv : n >>> 1 = n / 2 := by rw [Nat.shiftRight_eq_div_pow]
  have hand : n &&& 1 = 1 := by rw [Nat.and_one_is_mod, ho]
  have hlt : n / 2 < 2 ^ 63 := by omega
  unfold zigzag.decode_64 int64Xor toUnsigned64
  rw [hdiv, hand]
  have h1 : toSigned64 1 = 1 := by unfold toSigned64; norm_num
  have hd : toSigned64 (n / 2) = ((n / 2 : Nat) : Int) := by
    unfold toSigned64; rw [if_pos hlt]
  have hu : ((((n / 2 : Nat) : Int)) % 2 ^ 64).toNat = n / 2 := by
    have hle : (0 : Int) ≤ ((n / 2 : Nat) : Int) := Int.natCast_nonneg _
    have hlt2 : ((n / 2 : Nat) : Int) < 2 ^ 64 := by
      have hx : n / 2 < 2 ^ 64 := by omega
      exact_mod_cast hx
    rw [Int.emod_eq_of_lt hle hlt2]
    exact Int.toNat_ofNat _
  have hneg : ((-1 : Int) % 2 ^ 64).toNat = 2 ^ 64 - 1 := by decide
  rw [h1, hd, hu, hneg]
  have hxor : n / 2 ^^^ (2 ^ 64 - 1) = 2 ^ 64 - 1 - n / 2 :=
    xor_two_pow_sub_one 64 (n / 2) (by omega)
  rw [hxor]
  unfold toSigned64
  rw [if_neg (by omega)]
  omega

/-- The spec encoding inverts the 32-bit decoder on every 32-bit pattern. -/
theorem specEncode_decode32 (n : Nat) (hn : n < 2 ^ 32) :
    specZigzagEncode (zigzag.decode_32 n) = n := by
  rcases Nat.mod_two_eq_zero_or_one n with he | ho
  · rw [decode32_even n hn he]
    unfold specZigzagEncode
    rw [if_pos (Int.natCast_nonneg _)]
    omega
  · rw [decode32_odd n hn ho]
    unfold specZigzagEncode
    rw [if_neg (by omega)]
    omega

/-- The spec encoding inverts the 64-bit decoder on every 64-bit pattern. -/
theorem specEncode_decode64 (n : Nat) (hn : n < 2 ^ 64) :
    specZigzagEncode (zigzag.decode_64 n) = n := by
  rcases Nat.mod_two_eq_zero_or_one n with he | ho
  · rw [decode64_even n hn he]
    unfold specZigzagEncode
    rw [if_pos (Int.natCast_nonneg _)]
    omega
  · rw [decode64_odd n hn ho]
    unfold specZigzagEncode
    rw [if_neg (by omega)]
    omega

/-- The spec encoding is injective, so the decoded value is the unique
preimage of its encoding. -/
theorem specZigzagEncode_injective (v1 v2 : Int)
    (h : specZigzagEncode v1 = specZigzagEncode v2) : v1 = v2 := by
  unfold specZigzagEncode at h
  split at h <;> split at h <;> omega

/-- C4: for every 32-bit pattern n, zigzag decode_32 n is the value-shift of
n by one bit xor-ed (as i32) with the negation of the low bit, and it is the
unique two's-complement 32-bit value whose zigzag encoding is n, with fixed
points 0 to 0, 1 to -1, 2 to 1, 3 to -2; analogously for decode_64 over
every 64-bit pattern. -/
theorem zigzag_decode_correct (n32 n64 : Nat) (h32 : n32 < 2 ^ 32) (h64 : n64 < 2 ^ 64) :
    zigzag.decode_32 n32 = int32Xor (toSigned32 (n32 / 2)) (-toSigned32 (n32 % 2))
    ∧ specZigzagEncode (zigzag.decode_32 n32) = n32
    ∧ (∀ v : Int, -(2 ^ 31) ≤ v → v < 2 ^ 31 →
        (specZigzagEncode v = n32 ↔ v = zigzag.decode_32 n32))
    ∧ zigzag.decode_32 0 = 0 ∧ zigzag.decode_32 1 = -1
    ∧ zigzag.decode_32 2 = 1 ∧ zigzag.decode_32 3 = -2
    ∧ zigzag.decode_64 n64 = int64Xor (toSigned64 (n64 / 2)) (-toSigned64 (n64 % 2))
    ∧ specZigzagEncode (zigzag.decode_64 n64) = n64
    ∧ (∀ v : Int, -(2 ^ 63) ≤ v → v < 2 ^ 63 →
        (specZigzagEncode v = n64 ↔ v = zigzag.decode_64 n64))
    ∧ zigzag.decode_64 0 = 0 ∧ zigzag.decode_64 1 = -1
    ∧ zigzag.decode_64 2 = 1 ∧ zigzag.decode_64 3 = -2 := by
  refine ⟨?_, specEncode_decode32 n32 h32, fun v _ _ => ?_, by decide, by decide, by decide,
    by decide, ?_, specEncode_decode64 n64 h64, fun v _ _ => ?_, by decide, by decide,
    by decide, by decide⟩
  · unfold zigzag.decode_32
    rw [show n32 >>> 1 = n32 / 2 from by rw [Nat.shiftRight_eq_div_pow],
      Nat.and_one_is_mod]
  · constructor
    · intro hv
      exact specZigzagEncode_injective v (zigzag.decode_32 n32)
        (by rw [hv, specEncode_decode32 n32 h32])
    · intro hv
      rw [hv]
      exact specEncode_decode32 n32 h32
  · unfold zigzag.decode_64
    rw [show n64 >>> 1 = n64 / 2 from by rw [Nat.shiftRight_eq_div_pow],
      Nat.and_one_is_mod]
  · constructor
    · intro hv
      exact specZigzagEncode_injective v (zigzag.decode_64 n64)
        (by rw [hv, specEncode_decode64 n64 h64])
    · intro hv
      rw [hv]
      exact specEncode_decode64 n64 h64

/-- Witness for C4 at the concrete patterns 7 and 9. -/
theorem zigzag_decode_correct_witness :
    specZigzagEncode (zigzag.decode_32 7) = 7 ∧ specZigzagEncode (zigzag.decode_64 9) = 9 :=
  ⟨(zigzag_decode_correct 7 9 (by decide) (by decide)).2.1,
   (zigzag_decode_correct 7 9 (by decide) (by decide)).2.2.2.2.2.2.2.2.1⟩

namespace Proto

/-- Embedding of `FieldValue` (src/field.rs lines 27-40).  The fixed-width
variants carry their raw little-endian bytes, the length-delimited variant
carries its sub-view.  (Namespaced to avoid clashing with Mathlib names.) -/
inductive FieldValue where
  | varint : Nat → FieldValue
  | fixed64 : List Nat → FieldValue
  | lengthDelimited : List Nat → FieldValue
  | startGroup : FieldValue
  | endGroup : FieldValue
  | fixed32 : List Nat → FieldValue
deriving DecidableEq, Repr

/-- Embedding of `Field` (src/field.rs lines 14-19). -/
structure Field where
  number : Nat
  value : FieldValue
deriving DecidableEq, Repr

end Proto

namespace Fields

/-- Embedding of `Fields::try_next` (src/message.rs lines 45-92).  The
`&mut self` cursor is made explicit: the result is paired with the buffer
the iterator holds after the call.  Every early `return Err` leaves the
cursor untouched; only the final success line assigns it.  The
`len.try_into()` u64-to-usize conversion is the identity here (usize is
modelled as Nat, as on a 64-bit target). -/
def try_next (buf : List Nat) : RResult (Option Proto.Field) × List Nat :=
  if buf = [] then (.ok none, buf)
  else
    match read_varint buf with
    | .err => (.err, buf)
    | .panicked => (.panicked, buf)
    | .ok (buf1, tag) =>
      if tag >>> 3 = 0 then (.err, buf)
      else
        let wt := (tag % 256) &&& 7
        if wt = 0 then
          match read_varint buf1 with
          | .ok (buf2, v) => (.ok (some ⟨tag >>> 3, .varint v⟩), buf2)
          | .err => (.err, buf)
          | .panicked => (.panicked, buf)
        else if wt = 1 then
          if buf1.length < 8 then (.err, buf)
          else (.ok (some ⟨tag >>> 3, .fixed64 (buf1.take 8)⟩), buf1.drop 8)
        else if wt = 2 then
          match read_varint buf1 with
          | .ok (buf2, len) =>
            if buf2.length < len then (.err, buf)
            else (.ok (some ⟨tag >>> 3, .lengthDelimited (buf2.take len)⟩), buf2.drop len)
          | .err => (.err, buf)
          | .panicked => (.panicked, buf)
        else if wt = 3 then (.ok (some ⟨tag >>> 3, .startGroup⟩), buf1)
        else if wt = 4 then (.ok (some ⟨tag >>> 3, .endGroup⟩), buf1)
        else if wt = 5 then
          if buf1.length < 4 then (.err, buf)
          else (.ok (some ⟨tag >>> 3, .fixed32 (buf1.take 4)⟩), buf1.drop 4)
        else (.err, buf)

/-- Embedding of `Fields::next` (src/message.rs lines 98-100), which is
`self.try_next().transpose()`. -/
def next (buf : List Nat) : Option (RResult Proto.Field) × List Nat :=
  match try_next buf with
  | (.ok none, b) => (none, b)
  | (.ok (some f), b) => (some (.ok f), b)
  | (.err, b) => (some .err, b)
  | (.panicked, b) => (some .panicked, b)

/-- The items produced by n successive calls of `next` on the iterator. -/
def run : Nat → List Nat → List (Option (RResult Proto.Field))
  | 0, _ => []
  | n + 1, buf => (next buf).1 :: run n (next buf).2

end Fields

example : Fields.try_next [0x08, 0x01] = (.ok (some ⟨1, .varint 1⟩), []) := by decide
example : Fields.try_next [0x00] = (.err, [0x00]) := by decide

/-- C5: if the tag varint decodes with field number zero the decode step
errors, and consequently every field the iterator ever yields has a field
number of at least 1. -/
theorem field_number_zero_rejected :
    (∀ buf buf1 : List Nat, ∀ tag : Nat,
      read_varint buf = .ok (buf1, tag) → tag >>> 3 = 0 →
      (Fields.try_next buf).1 = .err)
    ∧ (∀ buf b : List Nat, ∀ f : Proto.Field,
      Fields.try_next buf = (.ok (some f), b) → 1 ≤ f.number) := by
  constructor
  · intro buf buf1 tag h hz
    have hne : buf ≠ [] := by
      intro hb
      rw [hb] at h
      exact RResult.noConfusion h
    simp [Fields.try_next, hne, h, hz]
  · intro buf b f h
    unfold Fields.try_next at h
    by_cases hb : buf = []
    · rw [if_pos hb] at h
      simp at h
    · rw [if_neg hb] at h
      cases hrv : read_varint buf with
      | err => rw [hrv] at h; simp at h
      | panicked => rw [hrv] at h; simp at h
      | ok p =>
        obtain ⟨buf1, tag⟩ := p
        rw [hrv] at h
        dsimp only [] at h
        by_cases hz : tag >>> 3 = 0
        · rw [if_pos hz] at h
          simp at h
        · rw [if_neg hz] at h
          repeat' split at h
          all_goals simp_all
          all_goals rw [← h.1]
          all_goals dsimp only []
          all_goals omega

/-- Witness for C5: tag byte 0x00 has field number 0 and is rejected; the
message 0x08 0x01 yields field number 1. -/
theorem field_number_zero_rejected_witness :
    (Fields.try_next [0x00]).1 = .err
    ∧ 1 ≤ (Proto.Field.mk 1 (Proto.FieldValue.varint 1)).number :=
  ⟨field_number_zero_rejected.1 [0x00] [] 0 (by decide) (by decide),
   field_number_zero_rejected.2 [0x08, 0x01] [] ⟨1, .varint 1⟩ (by decide)⟩

/-- The wire type `tag as u8 & 0x7` equals the low three bits of the tag. -/
theorem wire_eq (tag : Nat) : (tag % 256) &&& 7 = tag &&& 7 := by
  have h1 : (tag % 256) &&& 7 = tag % 8 := by
    have h := Nat.and_pow_two_sub_one_eq_mod (tag % 256) 3
    norm_num at h
    exact h
  have h2 : tag &&& 7 = tag % 8 := by
    have h := Nat.and_pow_two_sub_one_eq_mod tag 3
    norm_num at h
    exact h
  rw [h1, h2]

/-- C6: once the tag has decoded with a nonzero field number, its low three
bits fully determine the outcome: 0 yields a Varint field, 1 a Fixed64
field, 2 a LengthDelimited field, 3 and 4 yield StartGroup and EndGroup
consuming no payload bytes, 5 yields a Fixed32 field, and 6 and 7 always
error. -/
theorem wire_type_dispatch (buf buf1 : List Nat) (tag : Nat)
    (h1 : read_varint buf = .ok (buf1, tag)) (h2 : ¬ tag >>> 3 = 0) :
    (tag &&& 7 = 0 → ∀ f : Proto.Field, ∀ rest : List Nat,
        Fields.try_next buf = (.ok (some f), rest) →
        f.number = tag >>> 3 ∧ ∃ v, f.value = .varint v)
    ∧ (tag &&& 7 = 1 → ∀ f : Proto.Field, ∀ rest : List Nat,
        Fields.try_next buf = (.ok (some f), rest) →
        f.number = tag >>> 3 ∧ ∃ bs, f.value = .fixed64 bs)
    ∧ (tag &&& 7 = 2 → ∀ f : Proto.Field, ∀ rest : List Nat,
        Fields.try_next buf = (.ok (some f), rest) →
        f.number = tag >>> 3 ∧ ∃ bs, f.value = .lengthDelimited bs)
    ∧ (tag &&& 7 = 3 →
        Fields.try_next buf = (.ok (some ⟨tag >>> 3, .startGroup⟩), buf1))
    ∧ (tag &&& 7 = 4 →
        Fields.try_next buf = (.ok (some ⟨tag >>> 3, .endGroup⟩), buf1))
    ∧ (tag &&& 7 = 5 → ∀ f : Proto.Field, ∀ rest : List Nat,
        Fields.try_next buf = (.ok (some f), rest) →
        f.number = tag >>> 3 ∧ ∃ bs, f.value = .fixed32 bs)
    ∧ (tag &&& 7 = 6 ∨ tag &&& 7 = 7 → Fields.try_next buf = (.err, buf)) := by
  have hne : buf ≠ [] := by
    intro hb
    rw [hb] at h1
    exact RResult.noConfusion h1
  refine ⟨fun hw f rest h => ?_, fun hw f rest h => ?_, fun hw f rest h => ?_,
    fun hw => ?_, fun hw => ?_, fun hw f rest h => ?_, fun hw => ?_⟩
  · have hwt : (tag % 256) &&& 7 = 0 := by rw [wire_eq]; exact hw
    simp [Fields.try_next, hne, h1, h2, hwt] at h
    cases hrv2 : read_varint buf1 with
    | err => rw [hrv2] at h; simp at h
    | panicked => rw [hrv2] at h; simp at h
    | ok p =>
      obtain ⟨buf2, v⟩ := p
      rw [hrv2] at h
      simp at h
      obtain ⟨hf, -⟩ := h
      subst hf
      exact ⟨rfl, v, rfl⟩
  · have hwt : (tag % 256) &&& 7 = 1 := by rw [wire_eq]; exact hw
    simp [Fields.try_next, hne, h1, h2, hwt] at h
    split at h
    · simp at h
    · simp at h
      obtain ⟨hf, -⟩ := h
      subst hf
      exact ⟨rfl, _, rfl⟩
  · have hwt : (tag % 256) &&& 7 = 2 := by rw [wire_eq]; exact hw
    simp [Fields.try_next, hne, h1, h2, hwt] at h
    cases hrv2 : read_varint buf1 with
    | err => rw [hrv2] at h; simp at h
    | panicked => rw [hrv2] at h; simp at h
    | ok p =>
      obtain ⟨buf2, len⟩ := p
      rw [hrv2] at h
      dsimp only [] at h
      split at h
      · simp at h
      · simp at h
        obtain ⟨hf, -⟩ := h
        subst hf
        exact ⟨rfl, _, rfl⟩
  · have hwt : (tag % 256) &&& 7 = 3 := by rw [wire_eq]; exact hw
    simp [Fields.try_next, hne, h1, h2, hwt]
  · have hwt : (tag % 256) &&& 7 = 4 := by rw [wire_eq]; exact hw
    simp [Fields.try_next, hne, h1, h2, hwt]
  · have hwt : (tag % 256) &&& 7 = 5 := by rw [wire_eq]; exact hw
    simp [Fields.try_next, hne, h1, h2, hwt] at h
    split at h
    · simp at h
    · simp at h
      obtain ⟨hf, -⟩ := h
      subst hf
      exact ⟨rfl, _, rfl⟩
  · rcases hw with hw | hw
    · have hwt : (tag % 256) &&& 7 = 6 := by rw [wire_eq]; exact hw
      simp [Fields.try_next, hne, h1, h2, hwt]
    · have hwt : (tag % 256) &&& 7 = 7 := by rw [wire_eq]; exact hw
      simp [Fields.try_next, hne, h1, h2, hwt]

/-- Witness for C6: tag 0x0b is field 1 with wire type 3 and yields a
StartGroup marker consuming no payload. -/
theorem wire_type_dispatch_witness :
    Fields.try_next [0x0b] = (.ok (some ⟨1, .startGroup⟩), []) :=
  (wire_type_dispatch [0x0b] [] 0x0b (by decide) (by decide)).2.2.2.1 (by decide)

/-- The field decode step never panics: all its slice accesses are guarded
by length checks. -/
theorem try_next_ne_panicked (buf : List Nat) : (Fields.try_next buf).1 ≠ .panicked := by
  unfold Fields.try_next
  by_cases hb : buf = []
  · simp [hb]
  · rw [if_neg hb]
    cases hrv : read_varint buf with
    | err => simp
    | panicked => exact absurd hrv (read_varint_ne_panicked buf)
    | ok p =>
      obtain ⟨buf1, tag⟩ := p
      dsimp only []
      by_cases hz : tag >>> 3 = 0
      · simp [hz]
      · rw [if_neg hz]
        repeat' split
        all_goals simp_all
        all_goals exact absurd (by assumption) (read_varint_ne_panicked buf1)

/-- C7: a wire-type-1 field with fewer than 8 remaining payload bytes fails,
a wire-type-5 field with fewer than 4 remaining bytes fails, and a
wire-type-2 field whose declared length (of any size) exceeds the remaining
bytes fails; and the decode step never reads beyond the buffer (never
panics) on any input. -/
theorem truncation_errors :
    (∀ buf buf1 : List Nat, ∀ tag : Nat,
        read_varint buf = .ok (buf1, tag) → ¬ tag >>> 3 = 0 →
        (tag &&& 7 = 1 → buf1.length < 8 → Fields.try_next buf = (.err, buf))
        ∧ (tag &&& 7 = 5 → buf1.length < 4 → Fields.try_next buf = (.err, buf))
        ∧ (tag &&& 7 = 2 → ∀ buf2 : List Nat, ∀ len : Nat,
            read_varint buf1 = .ok (buf2, len) → buf2.length < len →
            Fields.try_next buf = (.err, buf)))
    ∧ (∀ buf : List Nat, (Fields.try_next buf).1 ≠ .panicked) := by
  refine ⟨fun buf buf1 tag h hz => ?_, try_next_ne_panicked⟩
  have hne : buf ≠ [] := by
    intro hb
    rw [hb] at h
    exact RResult.noConfusion h
  refine ⟨fun hw hlen => ?_, fun hw hlen => ?_, fun hw buf2 len h2 hlen => ?_⟩
  · have hwt : (tag % 256) &&& 7 = 1 := by rw [wire_eq]; exact hw
    simp [Fields.try_next, hne, h, hz, hwt, hlen]
  · have hwt : (tag % 256) &&& 7 = 5 := by rw [wire_eq]; exact hw
    simp [Fields.try_next, hne, h, hz, hwt, hlen]
  · have hwt : (tag % 256) &&& 7 = 2 := by rw [wire_eq]; exact hw
    simp [Fields.try_next, hne, h, hz, hwt, h2, hlen]

/-- Witness for C7: tag 0x09 asks for 8 fixed bytes from an empty remainder
and fails in place. -/
theorem truncation_errors_witness :
    Fields.try_next [0x09] = (.err, [0x09]) :=
  ((truncation_errors.1 [0x09] [] 9 (by decide) (by decide)).1 (by decide) (by decide))

/-- One step of the varint-family packed iterators generated by
`impl_packed` (src/field.rs lines 633-655), parameterised by the per-type
conversion applied to the decoded u64.  Returns the yielded item (`none`
when iteration has ended) together with the buffer the iterator holds
afterwards; on a decode error `self.buf` is not assigned, so the buffer
stays in place. -/
def packedVarintStep {α : Type} (get : Nat → α) (buf : List Nat) :
    Option (RResult α) × List Nat :=
  if buf = [] then (none, buf)
  else
    match read_varint buf with
    | .ok (b, v) => (some (.ok (get v)), b)
    | .err => (some .err, buf)
    | .panicked => (some .panicked, buf)

/-- One step of the 8-byte-element packed iterators generated by
`impl_packed` (src/field.rs lines 656-677). -/
def packedFixed64Step {α : Type} (get : List Nat → α) (buf : List Nat) :
    Option (RResult α) × List Nat :=
  if buf = [] then (none, buf)
  else if buf.length < 8 then (some .err, buf)
  else (some (.ok (get (buf.take 8))), buf.drop 8)

/-- One step of the 4-byte-element packed iterators generated by
`impl_packed` (src/field.rs lines 678-699). -/
def packedFixed32Step {α : Type} (get : List Nat → α) (buf : List Nat) :
    Option (RResult α) × List Nat :=
  if buf = [] then (none, buf)
  else if buf.length < 4 then (some .err, buf)
  else (some (.ok (get (buf.take 4))), buf.drop 4)

/-- Embedding of `Varint::get_int32` (src/field.rs lines 597-599): the u64
payload truncated and reinterpreted as i32. -/
def get_int32 (value : Nat) : Int := toSigned32 (value % 2 ^ 32)

/-- C8: every packed iterator family yields no items on an empty view, and
the fixed-width families turn a nonempty view shorter than the element
width into an error item rather than silently ending. -/
theorem packed_iterator_boundaries :
    (∀ (α β γ : Type) (g1 : Nat → α) (g2 : List Nat → β) (g3 : List Nat → γ),
      packedVarintStep g1 [] = (none, [])
      ∧ packedFixed64Step g2 [] = (none, [])
      ∧ packedFixed32Step g3 [] = (none, []))
    ∧ (∀ (β : Type) (g2 : List Nat → β) (buf : List Nat), buf ≠ [] → buf.length < 8 →
        packedFixed64Step g2 buf = (some .err, buf))
    ∧ (∀ (γ : Type) (g3 : List Nat → γ) (buf : List Nat), buf ≠ [] → buf.length < 4 →
        packedFixed32Step g3 buf = (some .err, buf)) := by
  refine ⟨fun α β γ g1 g2 g3 => ⟨rfl, rfl, rfl⟩,
    fun β g2 buf hne hlen => ?_, fun γ g3 buf hne hlen => ?_⟩
  · simp [packedFixed64Step, hne, hlen]
  · simp [packedFixed32Step, hne, hlen]

/-- Witness for C8 on concrete one-byte views. -/
theorem packed_iterator_boundaries_witness :
    packedFixed64Step (fun bs : List Nat => bs) [0] = (some .err, [0])
    ∧ packedVarintStep (fun v : Nat => v) [] = (none, []) :=
  ⟨packed_iterator_boundaries.2.1 (List Nat) (fun bs => bs) [0] (by decide) (by decide),
   (packed_iterator_boundaries.1 Nat (List Nat) (List Nat)
      (fun v => v) (fun bs => bs) (fun bs => bs)).1⟩

/-- Embedding of `Repeated` (src/field.rs lines 846-849). -/
inductive Repeated (α σ : Type) where
  | value : Option α → Repeated α σ
  | packed : σ → Repeated α σ
deriving DecidableEq, Repr

/-- One call of `Repeated::next` (src/field.rs lines 858-863): `v.take()`
on the value variant, delegation to the packed iterator otherwise. -/
def repeatedNext {α σ : Type} (step : σ → Option (RResult α) × σ) :
    Repeated α σ → Option (RResult α) × Repeated α σ
  | .value none => (none, .value none)
  | .value (some x) => (some (.ok x), .value none)
  | .packed s => ((step s).1, .packed (step s).2)

/-- `Repeated::next` for the int32 instance (`Repeated<i32, PackedInt32>`). -/
def repeatedInt32Next :
    Repeated Int (List Nat) → Option (RResult Int) × Repeated Int (List Nat) :=
  repeatedNext (packedVarintStep get_int32)

/-- The items produced by n successive calls of the repeated-int32 adapter. -/
def repeatedInt32Run : Nat → Repeated Int (List Nat) → List (Option (RResult Int))
  | 0, _ => []
  | n + 1, s => (repeatedInt32Next s).1 :: repeatedInt32Run n (repeatedInt32Next s).2

/-- C9: a single non-packed occurrence (Repeated.value of the decoded
scalar) and a packed run holding exactly that one encoded element
(Repeated.packed over the one-element view) produce identical sequences:
the value once, then none forever. -/
theorem repeated_packed_equiv (buf : List Nat) (v : Nat)
    (h : read_varint buf = .ok ([], v)) :
    ∀ n : Nat,
      repeatedInt32Run (n + 1) (.value (some (get_int32 v)))
        = some (.ok (get_int32 v)) :: List.replicate n none
      ∧ repeatedInt32Run (n + 1) (.packed buf)
        = some (.ok (get_int32 v)) :: List.replicate n none := by
  have hne : buf ≠ [] := by
    intro hb
    rw [hb] at h
    exact RResult.noConfusion h
  have hrep : ∀ n, repeatedInt32Run n (.value none) = List.replicate n none := by
    intro n
    induction n with
    | zero => rfl
    | succ n ih =>
      simp [repeatedInt32Run, repeatedInt32Next, repeatedNext, ih, List.replicate_succ]
  have hrep2 : ∀ n, repeatedInt32Run n (.packed ([] : List Nat)) = List.replicate n none := by
    intro n
    induction n with
    | zero => rfl
    | succ n ih =>
      simp [repeatedInt32Run, repeatedInt32Next, repeatedNext, packedVarintStep, ih,
        List.replicate_succ]
  intro n
  constructor
  · simp [repeatedInt32Run, repeatedInt32Next, repeatedNext, hrep]
  · simp [repeatedInt32Run, repeatedInt32Next, repeatedNext, packedVarintStep, hne, h, hrep2]

/-- Witness for C9 on the one-element packed view 0x05. -/
theorem repeated_packed_equiv_witness :
    repeatedInt32Run 3 (.packed [0x05]) = [some (.ok 5), none, none] := by
  rw [(repeated_packed_equiv [0x05] 5 (by decide) 2).2]
  decide

/-- A failing decode step leaves the cursor where it was: every .err result
carries the unchanged input buffer. -/
theorem try_next_err_state (buf : List Nat) (h : (Fields.try_next buf).1 = .err) :
    Fields.try_next buf = (.err, buf) := by
  unfold Fields.try_next at h ⊢
  by_cases hb : buf = []
  · simp [hb] at h
  · rw [if_neg hb] at h ⊢
    cases hrv : read_varint buf with
    | err => simp
    | panicked => rw [hrv] at h; simp at h
    | ok p =>
      obtain ⟨buf1, tag⟩ := p
      rw [hrv] at h
      dsimp only [] at h ⊢
      by_cases hz : tag >>> 3 = 0
      · simp [hz]
      · rw [if_neg hz] at h ⊢
        repeat' split
        all_goals simp_all

/-- C10: when a decode step fails, the iterator's buffer is unchanged, the
iterator yields some .err, and every later call yields the same some .err
from the same offset; the iterator never becomes exhausted through an
error. -/
theorem error_is_sticky (buf : List Nat) (h : (Fields.try_next buf).1 = .err) :
    (Fields.try_next buf).2 = buf
    ∧ Fields.next buf = (some .err, buf)
    ∧ ∀ n : Nat, Fields.run n buf = List.replicate n (some .err) := by
  have htn := try_next_err_state buf h
  have hnext : Fields.next buf = (some .err, buf) := by
    unfold Fields.next
    rw [htn]
  refine ⟨by rw [htn], hnext, fun n => ?_⟩
  induction n with
  | zero => rfl
  | succ n ih =>
    unfold Fields.run
    rw [hnext, List.replicate_succ]
    exact congrArg _ ih

/-- Witness for C10 on the field-number-zero message 0x00. -/
theorem error_is_sticky_witness :
    Fields.next [0x00] = (some .err, [0x00])
    ∧ Fields.run 2 [0x00] = [some .err, some .err] :=
  ⟨(error_is_sticky [0x00] (by decide)).2.1, by
    rw [(error_is_sticky [0x00] (by decide)).2.2 2]
    decide⟩

/-- Witness for C1 at trailing bytes 0x37. -/
theorem varint_round_trip_table_witness :
    read_varint [0x00, 0x37] = .ok ([0x37], 0) :=
  varint_round_trip_table.1 [0x37]

/-- Witness for C2: a lone continuation byte pair and a malformed tenth byte
both fail. -/
theorem varint_invalid_table_witness :
    read_varint [0x80, 0x90] = .err
    ∧ read_varint [0xff, 0xff, 0xff, 0xff, 0xff, 0xff, 0xff, 0xff, 0xff, 0x02] = .err :=
  ⟨varint_invalid_table.2.1 [0x80, 0x90] (by decide) (by decide),
   varint_invalid_table.2.2.1 0xff 0xff 0xff 0xff 0xff 0xff 0xff 0xff 0xff 0x02 []
     (by decide) (by decide) (by decide)⟩

/-- Witness for the amended C3 on a two-byte slice. -/
theorem fast_path_eq_loop_witness :
    read_varint [0x80, 0x01] = read_varint_loop [0x80, 0x01] :=
  fast_path_eq_loop [0x80, 0x01] (Or.inl (by decide))
